import Mathlib

/-!
# Verification of `simple_slab` (src/src/lib.rs)

Shallow embedding of the `Slab<T>` container from `src/src/lib.rs`.

Memory model: the backing allocation `mem_ptr` of `capacity` slots is a
`List (Option α)` of length `capacity`; a cell `none` is uninitialized
memory, a cell `some v` holds the bit pattern of a value `v`.  A raw
pointer read (`ptr::read`, `Index::index`, the iterator's dereference)
returns the cell contents, `none` when the cell was never written.
`ptr::write` and the write half of `mem::replace` are `List.set`.
`libc::realloc` (assumed to succeed, as the code aborts otherwise)
preserves the old cells and appends fresh uninitialized cells.
A `panic!` is modeled as `Except.error`.
-/

inductive SlabError where
  | outOfBounds
deriving DecidableEq, Repr

/-- `Slab<T>`: `capacity`, `num_elems`, and the backing memory region
(`mem_ptr` of `lib.rs`, modeled as a list of cells of length `capacity`). -/
structure Slab (α : Type) where
  capacity : Nat
  num_elems : Nat
  mem : List (Option α)
deriving Repr, DecidableEq

namespace Slab

variable {α : Type}

/-- `Slab::new`: empty slab, capacity 0, null backing pointer. -/
def new : Slab α :=
  { capacity := 0, num_elems := 0, mem := [] }

/-- `Slab::with_capacity`: allocates `capacity` uninitialized slots
(allocation assumed to succeed; on failure the code aborts). -/
def with_capacity (capacity : Nat) : Slab α :=
  { capacity := capacity, num_elems := 0, mem := List.replicate capacity none }

/-- `Slab::reallocate`: new capacity is `capacity * 2`, or `1` when the
current capacity is `0`; `realloc` keeps the old cells and appends fresh
uninitialized ones. -/
def reallocate (s : Slab α) : Slab α :=
  let new_capacity := if s.capacity ≠ 0 then s.capacity * 2 else 1
  { capacity := new_capacity,
    num_elems := s.num_elems,
    mem := s.mem ++ List.replicate (new_capacity - s.capacity) none }

/-- `Slab::insert`: grow when `num_elems == capacity`, `ptr::write` the
element at offset `num_elems`, increment `num_elems`.  The Rust function
returns `()` (no value). -/
def insert (s : Slab α) (elem : α) : Slab α :=
  let s := if s.num_elems = s.capacity then s.reallocate else s
  { capacity := s.capacity,
    num_elems := s.num_elems + 1,
    mem := s.mem.set s.num_elems (some elem) }

/-- The value the Rust `insert` returns to its caller: the unit value,
paired with the mutated slab. -/
def insertRet (s : Slab α) (elem : α) : Slab α × Unit :=
  (s.insert elem, ())

/-- `Slab::remove`: panic (`Except.error`) when `offset >= num_elems`,
before any memory access; otherwise `mem::replace` the cell at `offset`
with a `ptr::read` of the cell at `num_elems - 1` (the old last cell keeps
its bit pattern), decrement `num_elems`, and return the old cell contents
at `offset`. -/
def remove (s : Slab α) (offset : Nat) : Except SlabError (Option α × Slab α) :=
  if offset ≥ s.num_elems then
    .error .outOfBounds
  else
    let last_elem_offset := s.num_elems - 1
    let elem := s.mem.getD offset none
    .ok (elem,
      { capacity := s.capacity,
        num_elems := s.num_elems - 1,
        mem := s.mem.set offset (s.mem.getD last_elem_offset none) })

/-- `Slab::len`. -/
def len (s : Slab α) : Nat :=
  s.num_elems

/-- `Index::index` for `Slab<T>`: an unchecked raw-pointer read at the
requested offset; no bounds check of any kind. -/
def index (s : Slab α) (i : Nat) : Option α :=
  s.mem.getD i none

/-- Representation invariant every slab reachable through the public API
satisfies: `num_elems ≤ capacity` and the backing region has exactly
`capacity` slots. -/
def Inv (s : Slab α) : Prop :=
  s.num_elems ≤ s.capacity ∧ s.mem.length = s.capacity

instance (s : Slab α) : Decidable s.Inv := by
  unfold Inv; infer_instance

/-- The list of occupied cells, offsets `0` to `num_elems - 1` in storage
order. -/
def occupied (s : Slab α) : List (Option α) :=
  s.mem.take s.num_elems

end Slab

/-- `SlabIter<'a, T>`: a borrowed slab plus `current_offset`. -/
structure SlabIter (α : Type) where
  slab : Slab α
  current_offset : Nat

namespace SlabIter

variable {α : Type}

/-- `Iterator::next` for `SlabIter`: while `current_offset < len`, yield
the raw read at `current_offset` and advance; otherwise yield `None`.
Returns the yielded item and the iterator's new state. -/
def next (it : SlabIter α) : Option (Option α) × SlabIter α :=
  if it.current_offset < it.slab.num_elems then
    (some (it.slab.mem.getD it.current_offset none),
     { slab := it.slab, current_offset := it.current_offset + 1 })
  else
    (none, it)

/-- Drive the iterator for at most `fuel` calls to `next`, collecting the
yielded items and returning the final iterator state. -/
def run (it : SlabIter α) (fuel : Nat) : List (Option α) × SlabIter α :=
  match fuel with
  | 0 => ([], it)
  | fuel + 1 =>
    match it.next with
    | (none, it') => ([], it')
    | (some x, it') =>
      let r := it'.run fuel
      (x :: r.1, r.2)

end SlabIter

namespace Slab

variable {α : Type}

/-- `Slab::iter`. -/
def iter (s : Slab α) : SlabIter α :=
  { slab := s, current_offset := 0 }

/-- One public operation of the container's API. -/
inductive Op (α : Type) where
  | insert (v : α)
  | remove (p : Nat)
  | index (p : Nat)
  | iterate

/-- Observable state after one public call.  A failed `remove` panics in
Rust before mutating anything; the slab the caller still holds is
unchanged.  Indexing and iteration take `&self` and mutate nothing. -/
def applyOp (s : Slab α) : Op α → Slab α
  | .insert v => s.insert v
  | .remove p =>
    match s.remove p with
    | .ok (_, s') => s'
    | .error _ => s
  | .index _ => s
  | .iterate => s

/-- Run a sequence of public operations. -/
def runOps (s : Slab α) (ops : List (Op α)) : Slab α :=
  ops.foldl applyOp s

/-- Insert each value of `vs` in order. -/
def insertSeq (s : Slab α) (vs : List α) : Slab α :=
  vs.foldl insert s

/-- Remove at each position of `ps` in order, collecting the returned
values; propagates the first out-of-bounds panic. -/
def removeSeq (s : Slab α) (ps : List Nat) : Except SlabError (List (Option α) × Slab α) :=
  match ps with
  | [] => .ok ([], s)
  | p :: ps =>
    match s.remove p with
    | .error e => .error e
    | .ok (v, s') =>
      match s'.removeSeq ps with
      | .error e => .error e
      | .ok (vs, s'') => .ok (v :: vs, s'')

end Slab


/-! ## Helper lemmas -/

section Helpers

variable {α β : Type}

theorem getD_set_eq (l : List β) (p : Nat) (a d : β) (h : p < l.length) :
    (l.set p a).getD p d = a := by
  rw [List.getD_eq_getElem?_getD, List.getElem?_set_self h]
  rfl

theorem getD_set_ne (l : List β) (p i : Nat) (a d : β) (h : i ≠ p) :
    (l.set p a).getD i d = l.getD i d := by
  rw [List.getD_eq_getElem?_getD, List.getElem?_set_ne (Ne.symm h),
    ← List.getD_eq_getElem?_getD]

theorem getD_of_length_le (l : List β) (i : Nat) (d : β) (h : l.length ≤ i) :
    l.getD i d = d := by
  rw [List.getD_eq_getElem?_getD, List.getElem?_eq_none_iff.mpr h]
  rfl

theorem getD_take (l : List β) (n i : Nat) (d : β) (h : i < n) :
    (l.take n).getD i d = l.getD i d := by
  rw [List.getD_eq_getElem?_getD, List.getElem?_take, if_pos h,
    ← List.getD_eq_getElem?_getD]

namespace Slab

/-- The conditional growth step inlined at the head of `insert`. -/
def growIfFull (s : Slab α) : Slab α :=
  if s.num_elems = s.capacity then s.reallocate else s

theorem insert_eq (s : Slab α) (v : α) :
    s.insert v =
      { capacity := s.growIfFull.capacity,
        num_elems := s.growIfFull.num_elems + 1,
        mem := s.growIfFull.mem.set s.growIfFull.num_elems (some v) } := rfl

theorem reallocate_num_elems (s : Slab α) : s.reallocate.num_elems = s.num_elems := rfl

theorem reallocate_capacity_gt (s : Slab α) : s.capacity < s.reallocate.capacity := by
  show s.capacity < if s.capacity ≠ 0 then s.capacity * 2 else 1
  split <;> omega

theorem reallocate_mem_length (s : Slab α) :
    s.reallocate.mem.length = s.mem.length + (s.reallocate.capacity - s.capacity) := by
  show (s.mem ++ List.replicate _ none).length = _
  rw [List.length_append, List.length_replicate]
  rfl

theorem reallocate_Inv (s : Slab α) (h : s.Inv) : s.reallocate.Inv := by
  obtain ⟨h1, h2⟩ := h
  have hgt := s.reallocate_capacity_gt
  have hlen := s.reallocate_mem_length
  have hnum := s.reallocate_num_elems
  exact ⟨by omega, by omega⟩

theorem reallocate_take (s : Slab α) (k : Nat) (h : k ≤ s.mem.length) :
    s.reallocate.mem.take k = s.mem.take k := by
  show (s.mem ++ _).take k = s.mem.take k
  exact List.take_append_of_le_length h

theorem growIfFull_spec (s : Slab α) (h : s.Inv) :
    s.growIfFull.num_elems = s.num_elems ∧
    s.growIfFull.Inv ∧
    s.num_elems < s.growIfFull.mem.length ∧
    s.growIfFull.mem.take s.num_elems = s.mem.take s.num_elems := by
  obtain ⟨h1, h2⟩ := h
  unfold growIfFull
  by_cases hc : s.num_elems = s.capacity
  · have hgt := s.reallocate_capacity_gt
    have hInv := s.reallocate_Inv ⟨h1, h2⟩
    obtain ⟨hI1, hI2⟩ := hInv
    rw [if_pos hc]
    rw [reallocate_num_elems] at hI1 ⊢
    refine ⟨rfl, ⟨hI1, hI2⟩, by omega, s.reallocate_take s.num_elems (by omega)⟩
  · rw [if_neg hc]
    exact ⟨rfl, ⟨h1, h2⟩, by omega, rfl⟩

theorem insert_num_elems (s : Slab α) (v : α) :
    (s.insert v).num_elems = s.num_elems + 1 := by
  rw [insert_eq]
  show s.growIfFull.num_elems + 1 = s.num_elems + 1
  unfold growIfFull
  split <;> rfl

theorem insert_Inv (s : Slab α) (v : α) (h : s.Inv) : (s.insert v).Inv := by
  obtain ⟨hn, ⟨hI1, hI2⟩, hlt, -⟩ := s.growIfFull_spec h
  rw [insert_eq]
  refine ⟨?_, ?_⟩
  · show s.growIfFull.num_elems + 1 ≤ s.growIfFull.capacity
    omega
  · show (s.growIfFull.mem.set _ _).length = s.growIfFull.capacity
    rw [List.length_set]
    exact hI2

theorem insert_index_new (s : Slab α) (v : α) (h : s.Inv) :
    (s.insert v).index s.num_elems = some v := by
  obtain ⟨hn, -, hlt, -⟩ := s.growIfFull_spec h
  rw [insert_eq]
  show (s.growIfFull.mem.set s.growIfFull.num_elems (some v)).getD s.num_elems none = some v
  rw [hn]
  exact getD_set_eq _ _ _ _ hlt

theorem insert_occupied (s : Slab α) (v : α) (h : s.Inv) :
    (s.insert v).occupied = s.occupied ++ [some v] := by
  obtain ⟨hn, -, hlt, htake⟩ := s.growIfFull_spec h
  rw [insert_eq]
  show (s.growIfFull.mem.set s.growIfFull.num_elems (some v)).take
      (s.growIfFull.num_elems + 1) = s.mem.take s.num_elems ++ [some v]
  rw [List.take_succ, List.set_take]
  rw [List.getElem?_set_self (by omega)]
  rw [hn]
  congr 1
  rw [List.set_eq_of_length_le (by rw [List.length_take]; omega)]
  exact htake

end Slab

end Helpers

section RemoveLemmas

variable {α β : Type}

namespace Slab

theorem remove_eq_ok (s : Slab α) (p : Nat) (h : p < s.num_elems) :
    s.remove p = .ok (s.mem.getD p none,
      { capacity := s.capacity,
        num_elems := s.num_elems - 1,
        mem := s.mem.set p (s.mem.getD (s.num_elems - 1) none) }) := by
  unfold remove
  rw [if_neg (by omega)]

theorem remove_eq_error (s : Slab α) (p : Nat) (h : s.num_elems ≤ p) :
    s.remove p = .error .outOfBounds := by
  unfold remove
  rw [if_pos (by omega)]

theorem remove_ok_lt {s s' : Slab α} {p : Nat} {v : Option α}
    (hr : s.remove p = .ok (v, s')) : p < s.num_elems := by
  by_contra hp
  rw [s.remove_eq_error p (by omega)] at hr
  exact Except.noConfusion hr

theorem remove_ok_dest {s s' : Slab α} {p : Nat} {v : Option α}
    (hr : s.remove p = .ok (v, s')) :
    v = s.mem.getD p none ∧
    s' = { capacity := s.capacity,
           num_elems := s.num_elems - 1,
           mem := s.mem.set p (s.mem.getD (s.num_elems - 1) none) } := by
  have hp := remove_ok_lt hr
  rw [s.remove_eq_ok p hp] at hr
  have := Except.ok.inj hr
  exact ⟨(Prod.mk.injEq _ _ _ _ ▸ this).1.symm, (Prod.mk.injEq _ _ _ _ ▸ this).2.symm⟩

theorem remove_Inv {s s' : Slab α} {p : Nat} {v : Option α} (h : s.Inv)
    (hr : s.remove p = .ok (v, s')) : s'.Inv := by
  obtain ⟨h1, h2⟩ := h
  obtain ⟨-, hs'⟩ := remove_ok_dest hr
  subst hs'
  refine ⟨?_, ?_⟩
  · show s.num_elems - 1 ≤ s.capacity
    omega
  · show (s.mem.set p (s.mem.getD (s.num_elems - 1) none)).length = s.capacity
    rw [List.length_set]
    omega

end Slab

/-- Swap an element into position `p` and append the old element at `p`:
a permutation of appending the new element. -/
theorem set_append_getD_perm (l : List β) (p : Nat) (a d : β) (h : p < l.length) :
    List.Perm (l.set p a ++ [l.getD p d]) (l ++ [a]) := by
  induction l generalizing p with
  | nil => simp at h
  | cons x xs ih =>
    cases p with
    | zero =>
      show List.Perm (a :: (xs ++ [x])) (x :: (xs ++ [a]))
      have h1 : List.Perm (xs ++ [x]) (x :: xs) := List.perm_append_singleton x xs
      have h2 : List.Perm (xs ++ [a]) (a :: xs) := List.perm_append_singleton a xs
      exact ((h1.cons a).trans (List.Perm.swap x a xs)).trans (h2.cons x).symm
    | succ p =>
      show List.Perm (x :: (xs.set p a ++ [xs.getD p d])) (x :: (xs ++ [a]))
      exact (ih p (by simpa using h)).cons x

namespace Slab

/-- Swap-remove rearranges the occupied cells: the returned cell together
with the remaining occupied cells is a permutation of the occupied cells
before the call. -/
theorem remove_occupied_perm {s s' : Slab α} {p : Nat} {v : Option α} (hInv : s.Inv)
    (hr : s.remove p = .ok (v, s')) :
    List.Perm (v :: s'.occupied) s.occupied := by
  obtain ⟨h1, h2⟩ := hInv
  have hp := remove_ok_lt hr
  obtain ⟨hv, hs'⟩ := remove_ok_dest hr
  subst hs' hv
  unfold occupied
  simp only
  have hn1 : s.num_elems - 1 < s.mem.length := by omega
  have hmtake : s.mem.take s.num_elems
      = s.mem.take (s.num_elems - 1) ++ [s.mem.getD (s.num_elems - 1) none] := by
    have hsucc : s.num_elems = (s.num_elems - 1) + 1 := by omega
    conv_lhs => rw [hsucc]
    rw [List.take_succ, List.getElem?_eq_getElem hn1,
      List.getD_eq_getElem s.mem none hn1]
    rfl
  rw [List.set_take, hmtake]
  by_cases hlast : p = s.num_elems - 1
  · subst hlast
    rw [List.set_eq_of_length_le (by rw [List.length_take]; omega)]
    exact (List.perm_append_singleton _ _).symm
  · have hpt : p < (s.mem.take (s.num_elems - 1)).length := by
      rw [List.length_take]; omega
    have hvt : s.mem.getD p none = (s.mem.take (s.num_elems - 1)).getD p none :=
      (getD_take s.mem (s.num_elems - 1) p none (by omega)).symm
    rw [hvt]
    have hperm := set_append_getD_perm (s.mem.take (s.num_elems - 1)) p
      (s.mem.getD (s.num_elems - 1) none) none hpt
    exact ((List.perm_append_singleton _ _).symm.trans hperm)

end Slab

end RemoveLemmas

section SeqLemmas

variable {α : Type}

namespace Slab

theorem insertSeq_spec (vs : List α) :
    ∀ (s : Slab α), s.Inv →
    (s.insertSeq vs).Inv ∧
    (s.insertSeq vs).occupied = s.occupied ++ vs.map some ∧
    (s.insertSeq vs).num_elems = s.num_elems + vs.length := by
  induction vs with
  | nil =>
    intro s h
    exact ⟨h, by simp [insertSeq], rfl⟩
  | cons v vs ih =>
    intro s h
    have hstep : s.insertSeq (v :: vs) = (s.insert v).insertSeq vs := rfl
    obtain ⟨ih1, ih2, ih3⟩ := ih (s.insert v) (s.insert_Inv v h)
    rw [hstep]
    refine ⟨ih1, ?_, ?_⟩
    · rw [ih2, s.insert_occupied v h]
      simp
    · rw [ih3, s.insert_num_elems v]
      simp [List.length_cons]
      omega

theorem removeSeq_spec (ps : List Nat) :
    ∀ (s : Slab α) (outs : List (Option α)) (s' : Slab α), s.Inv →
    s.removeSeq ps = .ok (outs, s') →
    List.Perm (outs ++ s'.occupied) s.occupied ∧
    s'.num_elems + ps.length = s.num_elems ∧
    s'.Inv := by
  induction ps with
  | nil =>
    intro s outs s' h hr
    have : outs = [] ∧ s' = s := by
      unfold removeSeq at hr
      have := Except.ok.inj hr
      exact ⟨(Prod.mk.injEq _ _ _ _ ▸ this).1.symm, (Prod.mk.injEq _ _ _ _ ▸ this).2.symm⟩
    obtain ⟨ho, hs⟩ := this
    subst ho hs
    exact ⟨by simp, rfl, h⟩
  | cons p ps ih =>
    intro s outs s' h hr
    unfold removeSeq at hr
    cases hrem : s.remove p with
    | error e => rw [hrem] at hr; exact Except.noConfusion hr
    | ok r =>
      obtain ⟨v, s1⟩ := r
      rw [hrem] at hr
      dsimp only at hr
      cases hrest : s1.removeSeq ps with
      | error e => rw [hrest] at hr; exact Except.noConfusion hr
      | ok r2 =>
        obtain ⟨outs2, s2⟩ := r2
        rw [hrest] at hr
        dsimp only at hr
        have hinj := Except.ok.inj hr
        have houts : outs = v :: outs2 := (Prod.mk.injEq _ _ _ _ ▸ hinj).1.symm
        have hs2 : s' = s2 := (Prod.mk.injEq _ _ _ _ ▸ hinj).2.symm
        subst houts hs2
        have hp := remove_ok_lt hrem
        have h1Inv := remove_Inv h hrem
        have hperm1 := remove_occupied_perm h hrem
        have hnum1 : s1.num_elems = s.num_elems - 1 := by
          obtain ⟨-, hs1⟩ := remove_ok_dest hrem
          subst hs1
          rfl
        obtain ⟨ihperm, ihnum, ihInv⟩ := ih s1 outs2 s' h1Inv hrest
        refine ⟨?_, by simp [List.length_cons]; omega, ihInv⟩
        show List.Perm (v :: (outs2 ++ s'.occupied)) s.occupied
        exact ((ihperm.cons v).trans hperm1)

theorem applyOp_Inv (s : Slab α) (o : Op α) (h : s.Inv) : (s.applyOp o).Inv := by
  cases o with
  | insert v => exact s.insert_Inv v h
  | remove p =>
    show (match s.remove p with
      | .ok (_, s') => s'
      | .error _ => s).Inv
    by_cases hp : p < s.num_elems
    · rw [s.remove_eq_ok p hp]
      exact remove_Inv h (s.remove_eq_ok p hp)
    · rw [s.remove_eq_error p (by omega)]
      exact h
  | index p => exact h
  | iterate => exact h

theorem runOps_Inv (ops : List (Op α)) :
    ∀ (s : Slab α), s.Inv → (s.runOps ops).Inv := by
  induction ops with
  | nil => intro s h; exact h
  | cons o ops ih =>
    intro s h
    exact ih (s.applyOp o) (s.applyOp_Inv o h)

theorem new_Inv : (new : Slab α).Inv := ⟨Nat.le_refl 0, rfl⟩

theorem with_capacity_Inv (c : Nat) : (with_capacity c : Slab α).Inv :=
  ⟨Nat.zero_le c, List.length_replicate c none⟩

end Slab

end SeqLemmas

section IterLemmas

variable {α : Type}

namespace SlabIter

theorem next_of_lt (it : SlabIter α) (h : it.current_offset < it.slab.num_elems) :
    it.next = (some (it.slab.mem.getD it.current_offset none),
      { slab := it.slab, current_offset := it.current_offset + 1 }) := by
  unfold next
  rw [if_pos h]

theorem next_of_le (it : SlabIter α) (h : it.slab.num_elems ≤ it.current_offset) :
    it.next = (none, it) := by
  unfold next
  rw [if_neg (by omega)]

/-- Running the iterator with enough fuel yields exactly the occupied cells
from `current_offset` on, leaves the slab untouched, and ends with the
offset at or past `num_elems`. -/
theorem run_spec (fuel : Nat) :
    ∀ (it : SlabIter α), it.slab.Inv →
    it.slab.num_elems ≤ it.current_offset + fuel →
    (it.run fuel).1 = it.slab.occupied.drop it.current_offset ∧
    (it.run fuel).2.slab = it.slab ∧
    it.slab.num_elems ≤ (it.run fuel).2.current_offset := by
  induction fuel with
  | zero =>
    intro it hInv hle
    have hlen : it.slab.occupied.length ≤ it.current_offset := by
      show (it.slab.mem.take it.slab.num_elems).length ≤ it.current_offset
      rw [List.length_take]
      omega
    refine ⟨?_, rfl, ?_⟩
    · show ([] : List (Option α)) = it.slab.occupied.drop it.current_offset
      exact (List.drop_eq_nil_of_le hlen).symm
    · show it.slab.num_elems ≤ it.current_offset
      omega
  | succ fuel ih =>
    intro it hInv hle
    by_cases hlt : it.current_offset < it.slab.num_elems
    · have hnext := it.next_of_lt hlt
      have hrun : it.run (fuel + 1) =
          ((it.slab.mem.getD it.current_offset none) ::
            ((SlabIter.mk it.slab (it.current_offset + 1)).run fuel).1,
           ((SlabIter.mk it.slab (it.current_offset + 1)).run fuel).2) := by
        simp only [run, hnext]
      obtain ⟨ih1, ih2, ih3⟩ := ih (SlabIter.mk it.slab (it.current_offset + 1)) hInv
        (by show it.slab.num_elems ≤ it.current_offset + 1 + fuel; omega)
      rw [hrun]
      refine ⟨?_, ih2, ih3⟩
      show it.slab.mem.getD it.current_offset none ::
          ((SlabIter.mk it.slab (it.current_offset + 1)).run fuel).1
        = it.slab.occupied.drop it.current_offset
      rw [ih1]
      show it.slab.mem.getD it.current_offset none ::
          it.slab.occupied.drop (it.current_offset + 1)
        = it.slab.occupied.drop it.current_offset
      have hocc : it.current_offset < it.slab.occupied.length := by
        show it.current_offset < (it.slab.mem.take it.slab.num_elems).length
        rw [List.length_take]
        have := hInv.1
        have := hInv.2
        omega
      rw [List.drop_eq_getElem_cons hocc]
      congr 1
      rw [← List.getD_eq_getElem it.slab.occupied none hocc]
      show it.slab.mem.getD it.current_offset none
        = (it.slab.mem.take it.slab.num_elems).getD it.current_offset none
      rw [getD_take it.slab.mem it.slab.num_elems it.current_offset none hlt]
    · have hnext := it.next_of_le (by omega)
      have hrun : it.run (fuel + 1) = ([], it) := by
        simp only [run, hnext]
      rw [hrun]
      have hlen : it.slab.occupied.length ≤ it.current_offset := by
        show (it.slab.mem.take it.slab.num_elems).length ≤ it.current_offset
        rw [List.length_take]
        omega
      refine ⟨?_, rfl, ?_⟩
      · show ([] : List (Option α)) = it.slab.occupied.drop it.current_offset
        exact (List.drop_eq_nil_of_le hlen).symm
      · show it.slab.num_elems ≤ it.current_offset
        omega

end SlabIter

end IterLemmas

/-! ## Claims -/

/-- C1: for every slab with length `n ≥ 1` and every position `p < n`,
`remove(p)` returns the value stored at position `p`, the value previously
stored at the last occupied slot `n - 1` is afterwards stored at `p` (when
`p` was not already the last position), and the length after the call is
exactly `n - 1`. -/
theorem C1_remove_swap_spec (s : Slab Nat) (p v : Nat)
    (hInv : s.Inv) (hn : 1 ≤ s.num_elems) (hp : p < s.num_elems)
    (hv : s.mem.getD p none = some v) :
    ∃ s', s.remove p = .ok (some v, s') ∧
      s'.num_elems = s.num_elems - 1 ∧
      (p ≠ s.num_elems - 1 →
        s'.mem.getD p none = s.mem.getD (s.num_elems - 1) none) := by
  obtain ⟨h1, h2⟩ := hInv
  refine ⟨{ capacity := s.capacity, num_elems := s.num_elems - 1,
            mem := s.mem.set p (s.mem.getD (s.num_elems - 1) none) },
          ?_, rfl, ?_⟩
  · rw [s.remove_eq_ok p hp, hv]
  · intro hne
    show (s.mem.set p (s.mem.getD (s.num_elems - 1) none)).getD p none
        = s.mem.getD (s.num_elems - 1) none
    exact getD_set_eq s.mem p _ none (by omega)

/-- C1 witness: slab `[7, 9]`, removing position 0 returns 7, moves 9 into
position 0, and leaves length 1. -/
theorem C1_remove_swap_spec_witness :
    ∃ s', ((Slab.new : Slab Nat).insert 7 |>.insert 9).remove 0 = .ok (some 7, s') ∧
      s'.num_elems = 1 ∧ (0 ≠ 1 → s'.mem.getD 0 none = some 9) :=
  C1_remove_swap_spec _ 0 7 (by decide) (by decide) (by decide) (by decide)

/-- C2: after `insert(v)`, the slot at offset equal to the pre-insert length
holds a value equal to `v` (reading that position immediately after the
insert yields `v`), and the length has increased by exactly one. -/
theorem C2_insert_then_index (s : Slab Nat) (v : Nat) (hInv : s.Inv) :
    (s.insert v).index s.num_elems = some v ∧
    (s.insert v).num_elems = s.num_elems + 1 :=
  ⟨s.insert_index_new v hInv, s.insert_num_elems v⟩

/-- C2 witness: inserting 5 into an empty slab places 5 at offset 0 and
makes the length 1. -/
theorem C2_insert_then_index_witness :
    ((Slab.new : Slab Nat).insert 5).index 0 = some 5 ∧
    ((Slab.new : Slab Nat).insert 5).num_elems = 0 + 1 :=
  C2_insert_then_index Slab.new 5 (by decide)

/-- C3 counterexample: the claim says the public index operator signals an
out-of-bounds error and performs no read at `position ≥ length`.  On the
slab built by inserting 10 and 20 and then removing position 0 (length 1),
indexing position 1 = length returns the stale memory cell `some 20` — a
successful raw read past `length` with no error signalled.  Moreover the
result of indexing past `length` depends on the memory contents above
`length`: two reachable slabs with identical occupied cells and lengths
give different results, so a real out-of-bounds read occurs. -/
theorem C3_counterexample :
    ((Slab.applyOp ((Slab.with_capacity 2 : Slab Nat).insert 10 |>.insert 20)
        (Slab.Op.remove 0)).num_elems ≤ 1 ∧
      (Slab.applyOp ((Slab.with_capacity 2 : Slab Nat).insert 10 |>.insert 20)
        (Slab.Op.remove 0)).index 1 = some 20) ∧
    ∃ (s t : Slab Nat) (i : Nat), s.Inv ∧ t.Inv ∧
      s.num_elems ≤ i ∧ t.num_elems ≤ i ∧
      s.num_elems = t.num_elems ∧ s.occupied = t.occupied ∧
      s.index i ≠ t.index i := by
  refine ⟨⟨by decide, by decide⟩, ?_⟩
  refine ⟨Slab.applyOp ((Slab.with_capacity 1 : Slab Nat).insert 3) (Slab.Op.remove 0),
          Slab.applyOp ((Slab.with_capacity 1 : Slab Nat).insert 4) (Slab.Op.remove 0),
          0, by decide, by decide, by decide, by decide, by decide, by decide, by decide⟩

/-- C3 amended: the reference's public index operator performs no bounds
check and signals no error: at every position, including `position ≥
length`, it performs a raw read of the backing memory at that offset (so
it can observe uninitialized or stale memory); at positions at or beyond
`capacity` the read leaves the allocation entirely. -/
theorem C3_amended_unchecked_index (s : Slab Nat) (i : Nat) (hInv : s.Inv)
    (hi : s.num_elems ≤ i) :
    s.index i = s.mem.getD i none ∧ (s.capacity ≤ i → s.index i = none) := by
  refine ⟨rfl, fun hcap => ?_⟩
  have h2 := hInv.2
  exact getD_of_length_le s.mem i none (by omega)

/-- C3 amended witness: on the singleton slab holding 5 (length 1,
capacity 1), indexing position 3 is an unchecked read outside the
allocation. -/
theorem C3_amended_unchecked_index_witness :
    ((Slab.new : Slab Nat).insert 5).index 3
        = ((Slab.new : Slab Nat).insert 5).mem.getD 3 none ∧
    (((Slab.new : Slab Nat).insert 5).capacity ≤ 3 →
      ((Slab.new : Slab Nat).insert 5).index 3 = none) :=
  C3_amended_unchecked_index _ 3 (by decide) (by decide)

/-- C4 counterexample: the claim says `insert(v)` returns the offset at
which the element now resides (the pre-insert length) as a `usize`.  The
source's `insert` returns `()`: no function of its return value can
recover the pre-insert length, because slabs of different lengths produce
the identical return value. -/
theorem C4_counterexample :
    ¬ ∃ g : Unit → Nat, ∀ (s : Slab Nat) (v : Nat),
      g (Slab.insertRet s v).2 = s.num_elems := by
  rintro ⟨g, hg⟩
  have e0 : g () = 0 := hg (Slab.new : Slab Nat) 0
  have e1 : g () = 1 := hg ((Slab.new : Slab Nat).insert 0) 0
  omega

/-- C4 amended: `insert` returns no position — the Rust function's return
value is the unit value.  The inserted element does reside at the offset
equal to the pre-insert length (`len()` before the call), which the caller
can compute. -/
theorem C4_amended_insert_returns_unit (s : Slab Nat) (v : Nat) (hInv : s.Inv) :
    (Slab.insertRet s v).2 = () ∧
    (Slab.insertRet s v).1.index s.len = some v :=
  ⟨rfl, s.insert_index_new v hInv⟩

/-- C4 amended witness: inserting 5 into an empty slab returns unit, and
the element resides at the pre-insert length 0. -/
theorem C4_amended_insert_returns_unit_witness :
    (Slab.insertRet (Slab.new : Slab Nat) 5).2 = () ∧
    (Slab.insertRet (Slab.new : Slab Nat) 5).1.index (Slab.new : Slab Nat).len = some 5 :=
  C4_amended_insert_returns_unit Slab.new 5 (by decide)

/-- C5: for every sequence of public operations (construction with any
capacity or empty, insert, remove, indexing, iteration), `length ≤
capacity` holds after every call (`0 ≤ length` holds because lengths are
natural numbers); quantifying over all operation lists covers every prefix
of every sequence. -/
theorem C5_length_le_capacity (c : Nat) (ops : List (Slab.Op Nat)) :
    ((Slab.with_capacity c : Slab Nat).runOps ops).num_elems
      ≤ ((Slab.with_capacity c : Slab Nat).runOps ops).capacity ∧
    ((Slab.new : Slab Nat).runOps ops).num_elems
      ≤ ((Slab.new : Slab Nat).runOps ops).capacity :=
  ⟨(Slab.runOps_Inv ops _ (Slab.with_capacity_Inv c)).1,
   (Slab.runOps_Inv ops _ Slab.new_Inv).1⟩

/-- C6: growth is triggered exactly when `length == capacity` at an insert,
and sets the new capacity to `max(1, capacity * 2)`; a slab constructed
with capacity 1 receiving 3 inserts goes through capacity progression
`1 -> 2 -> 4`, with all 3 inserted values retrievable at their original
positions after each growth. -/
theorem C6_growth_policy :
    (∀ (s : Slab Nat) (v : Nat),
      (s.insert v).capacity =
        if s.num_elems = s.capacity then max 1 (s.capacity * 2) else s.capacity) ∧
    ((Slab.with_capacity 1 : Slab Nat).insert 10).capacity = 1 ∧
    (((Slab.with_capacity 1 : Slab Nat).insert 10).insert 20).capacity = 2 ∧
    ((((Slab.with_capacity 1 : Slab Nat).insert 10).insert 20).insert 30).capacity = 4 ∧
    ((Slab.with_capacity 1 : Slab Nat).insert 10).index 0 = some 10 ∧
    (((Slab.with_capacity 1 : Slab Nat).insert 10).insert 20).index 0 = some 10 ∧
    (((Slab.with_capacity 1 : Slab Nat).insert 10).insert 20).index 1 = some 20 ∧
    ((((Slab.with_capacity 1 : Slab Nat).insert 10).insert 20).insert 30).index 0 = some 10 ∧
    ((((Slab.with_capacity 1 : Slab Nat).insert 10).insert 20).insert 30).index 1 = some 20 ∧
    ((((Slab.with_capacity 1 : Slab Nat).insert 10).insert 20).insert 30).index 2 = some 30 := by
  refine ⟨?_, by decide, by decide, by decide, by decide, by decide, by decide,
    by decide, by decide, by decide⟩
  intro s v
  rw [Slab.insert_eq]
  show s.growIfFull.capacity = _
  unfold Slab.growIfFull
  by_cases hc : s.num_elems = s.capacity
  · rw [if_pos hc, if_pos hc]
    show (if s.capacity ≠ 0 then s.capacity * 2 else 1) = max 1 (s.capacity * 2)
    by_cases h0 : s.capacity = 0
    · rw [if_neg (by omega)]
      omega
    · rw [if_pos h0]
      omega
  · rw [if_neg hc, if_neg hc]

/-- C7: inserting N distinct values into an empty slab and then performing
N removals at positions each valid at the time of the call (validity is
equivalent to the run returning `ok`) yields exactly the original N values
across the removals, as a multiset, ending with length 0. -/
theorem C7_round_trip (vs : List Nat) (ps : List Nat)
    (outs : List (Option Nat)) (s' : Slab Nat)
    (hnd : vs.Nodup) (hlen : ps.length = vs.length)
    (hrun : ((Slab.new : Slab Nat).insertSeq vs).removeSeq ps = .ok (outs, s')) :
    (outs : Multiset (Option Nat)) = ((vs.map some : List (Option Nat)) : Multiset (Option Nat)) ∧
    s'.num_elems = 0 := by
  obtain ⟨hInv0, hocc0, hnum0⟩ := Slab.insertSeq_spec vs Slab.new Slab.new_Inv
  obtain ⟨hperm, hnum, hInv'⟩ := Slab.removeSeq_spec ps _ outs s' hInv0 hrun
  have hnew : (Slab.new : Slab Nat).num_elems = 0 := rfl
  have hnum' : s'.num_elems = 0 := by
    rw [hnum0, hnew] at hnum
    omega
  refine ⟨?_, hnum'⟩
  have hocc' : s'.occupied = [] := by
    show s'.mem.take s'.num_elems = []
    rw [hnum']
    rfl
  rw [hocc', List.append_nil, hocc0] at hperm
  have hperm' : List.Perm outs (vs.map some) := by
    have hemp : (Slab.new : Slab Nat).occupied = [] := rfl
    rw [hemp] at hperm
    simpa using hperm
  exact Multiset.coe_eq_coe.mpr hperm'

/-- C7 witness: insert 10 and 20, remove position 0 twice; the two removals
return 10 and 20 (as a multiset) and the slab ends empty. -/
theorem C7_round_trip_witness :
    (([some 10, some 20] : List (Option Nat)) : Multiset (Option Nat))
        = ((([10, 20] : List Nat).map some : List (Option Nat)) : Multiset (Option Nat)) ∧
    (Slab.mk 2 0 [some 20, some 20] : Slab Nat).num_elems = 0 :=
  C7_round_trip [10, 20] [0, 0] [some 10, some 20] (Slab.mk 2 0 [some 20, some 20])
    (by decide) (by decide) rfl

/-- C8: a fresh iterator over any slab satisfying the representation
invariant (in particular any slab reachable by inserts and removes) yields
exactly `length` elements — the occupied cells in storage order from
offset 0 upward, each exactly once — and afterwards `next` yields nothing
further; this holds for any fuel of at least `length` calls. -/
theorem C8_iteration_complete (s : Slab Nat) (fuel : Nat) (hInv : s.Inv)
    (hfuel : s.num_elems ≤ fuel) :
    (s.iter.run fuel).1 = s.occupied ∧
    (s.iter.run fuel).1.length = s.num_elems ∧
    ((s.iter.run fuel).2.next).1 = none := by
  obtain ⟨h1, h2, h3⟩ := SlabIter.run_spec fuel s.iter hInv
    (by show s.num_elems ≤ 0 + fuel; omega)
  have h1' : (s.iter.run fuel).1 = s.occupied.drop 0 := h1
  rw [List.drop_zero] at h1'
  have hlen : s.occupied.length = s.num_elems := by
    show (s.mem.take s.num_elems).length = s.num_elems
    rw [List.length_take]
    have := hInv.1
    have := hInv.2
    omega
  refine ⟨h1', by rw [h1', hlen], ?_⟩
  have h2' : (s.iter.run fuel).2.slab = s := h2
  have h3' : s.num_elems ≤ (s.iter.run fuel).2.current_offset := h3
  rw [SlabIter.next_of_le _ (by rw [h2']; exact h3')]

/-- C8 witness: iterating the two-element slab `[7, 9]` with fuel 5 yields
exactly its 2 occupied cells in order, and then nothing. -/
theorem C8_iteration_complete_witness :
    ((((Slab.new : Slab Nat).insert 7).insert 9).iter.run 5).1
        = (((Slab.new : Slab Nat).insert 7).insert 9).occupied ∧
    ((((Slab.new : Slab Nat).insert 7).insert 9).iter.run 5).1.length
        = (((Slab.new : Slab Nat).insert 7).insert 9).num_elems ∧
    (((((Slab.new : Slab Nat).insert 7).insert 9).iter.run 5).2.next).1 = none :=
  C8_iteration_complete _ 5 (by decide) (by decide)

/-- C9: `remove(position)` signals `OutOfBounds` if and only if
`position ≥ length`; the bounds check is the first action of the function
(before any memory access), and on the error path the observable slab
state — length, capacity and every cell — is unchanged. -/
theorem C9_remove_bounds (s : Slab Nat) (p : Nat) :
    (s.remove p = .error .outOfBounds ↔ s.num_elems ≤ p) ∧
    (s.num_elems ≤ p → s.applyOp (.remove p) = s) := by
  constructor
  · constructor
    · intro h
      by_contra hp
      rw [s.remove_eq_ok p (by omega)] at h
      exact Except.noConfusion h
    · exact s.remove_eq_error p
  · intro h
    simp only [Slab.applyOp]
    rw [s.remove_eq_error p h]

/-- C9 witness: removing position 3 from the singleton slab `[7]` errors
(3 ≥ 1) and leaves the slab unchanged. -/
theorem C9_remove_bounds_witness :
    (((Slab.new : Slab Nat).insert 7).remove 3 = .error .outOfBounds ↔
      ((Slab.new : Slab Nat).insert 7).num_elems ≤ 3) ∧
    (((Slab.new : Slab Nat).insert 7).num_elems ≤ 3 →
      ((Slab.new : Slab Nat).insert 7).applyOp (.remove 3)
        = (Slab.new : Slab Nat).insert 7) :=
  C9_remove_bounds ((Slab.new : Slab Nat).insert 7) 3

/-- C10: removing the last position `n - 1` returns the value stored
there and leaves every cell at positions `[0, n - 1)` unchanged, even
though the implementation unconditionally relocates the last cell into
the removed slot (a self-assignment here); the sole-element case `n = 1`
is included, after which the length is 0. -/
theorem C10_remove_last_frame (s : Slab Nat) (v : Nat) (hInv : s.Inv)
    (hn : 1 ≤ s.num_elems)
    (hv : s.mem.getD (s.num_elems - 1) none = some v) :
    ∃ s', s.remove (s.num_elems - 1) = .ok (some v, s') ∧
      s'.num_elems = s.num_elems - 1 ∧
      ∀ i, i < s.num_elems - 1 → s'.index i = s.index i := by
  obtain ⟨h1, h2⟩ := hInv
  refine ⟨{ capacity := s.capacity, num_elems := s.num_elems - 1,
            mem := s.mem.set (s.num_elems - 1)
              (s.mem.getD (s.num_elems - 1) none) },
          ?_, rfl, ?_⟩
  · rw [s.remove_eq_ok (s.num_elems - 1) (by omega), hv]
  · intro i hi
    show (s.mem.set (s.num_elems - 1) (s.mem.getD (s.num_elems - 1) none)).getD i none
        = s.mem.getD i none
    exact getD_set_ne s.mem (s.num_elems - 1) i _ none (by omega)

/-- C10 witness: the sole-element case — removing position 0 from the
singleton slab `[7]` returns 7 and leaves length 0 (the frame range is
empty). -/
theorem C10_remove_last_frame_witness :
    ∃ s', ((Slab.new : Slab Nat).insert 7).remove 0 = .ok (some 7, s') ∧
      s'.num_elems = 0 ∧
      ∀ i, i < 0 → s'.index i = ((Slab.new : Slab Nat).insert 7).index i :=
  C10_remove_last_frame _ 7 (by decide) (by decide) (by decide)
